import Mathlib

/-!
Shallow embedding of the live-agent voice session core of the Neon Voice
studio: the PCM framer/decoder, the playback scheduler, the session hook
state machine (connect / cleanup / onmessage / telemetry tick), the outbound
microphone frame pipeline, and the project store query.  Machine numbers are
embedded as exact rationals and integers; browser resources (audio contexts,
microphone streams, transports) are tracked in an explicit world record so
that acquisition and release are observable.
-/

namespace NeonVoice

/-! ### PCM framer/decoder (utils/audio) -/

/-- Modelled from the spec: the sources import createPcmBlob and
decodeAudioData from utils/audio, a file absent from the repository snapshot;
per the spec the encoder quantizes each floating-point sample in [-1,1] to a
signed 16-bit integer clamped to the representable range.  clamp16 is that
clamp. -/
def clamp16 (n : ℤ) : ℤ := max (-32768) (min 32767 n)

/-- Modelled from the spec: quantization of one floating-point sample to a
clamped signed 16-bit integer. -/
def encodeSample (s : ℚ) : ℤ := clamp16 ⌊s * 32768⌋

/-- Modelled from the spec: little-endian two's-complement byte serialization
of a signed 16-bit sample. -/
def int16ToBytes (n : ℤ) : ℕ × ℕ :=
  let u := (n % 65536).toNat
  (u % 256, u / 256)

/-- Modelled from the spec: read one signed 16-bit little-endian sample back
from its two bytes. -/
def bytesToInt16 (lo hi : ℕ) : ℤ :=
  let u : ℤ := lo + 256 * hi
  if u < 32768 then u else u - 65536

/-- Modelled from the spec: conversion of a signed 16-bit sample back to a
floating-point sample in [-1,1]. -/
def decodeSample (n : ℤ) : ℚ := (n : ℚ) / 32768

/-- Modelled from the spec: createPcmBlob quantizes a block of floating-point
samples to signed 16-bit integers and serializes the byte sequence
little-endian.  The base64 wrapping is a bijection on byte sequences, so the
model works at the byte-sequence level. -/
def createPcmBlob (samples : List ℚ) : List ℕ :=
  samples.foldr (fun s acc => let b := int16ToBytes (encodeSample s); b.1 :: b.2 :: acc) []

/-- Modelled from the spec: decodeAudioData turns a byte sequence of signed
16-bit little-endian samples back into floating-point samples in [-1,1]. -/
def decodeAudioData : List ℕ → List ℚ
  | lo :: hi :: rest => decodeSample (bytesToInt16 lo hi) :: decodeAudioData rest
  | _ => []

/-! ### Playback scheduler -/

/-- One enqueue of a decoded buffer by the playback scheduler (useLiveAgent
onmessage, the audio branch): nextStartTime is bumped to
max nextStartTime deviceClockNow, the source is scheduled to start there, and
nextStartTime then advances by duration / rate.  Returns the new
nextStartTime paired with the scheduled start. -/
def enqueueChunk (nextStartTime d r clock : ℚ) : ℚ × ℚ :=
  let start := max nextStartTime clock
  (start + d / r, start)

/-- One decoded response chunk: its duration, the playback rate applied to
its source, and the output-device clock reading at the moment it is
enqueued. -/
structure Chunk where
  duration : ℚ
  rate : ℚ
  clock : ℚ

/-- Scheduled (start, chunk) pairs produced by a run of enqueues starting
from a given nextStartTime. -/
def sched (t : ℚ) : List Chunk → List (ℚ × Chunk)
  | [] => []
  | c :: cs =>
    let p := enqueueChunk t c.duration c.rate c.clock
    (p.2, c) :: sched p.1 cs

/-- Value of nextStartTime after a run of enqueues; for a nonempty run this
is the scheduled end of the last chunk. -/
def finalTime (t : ℚ) : List Chunk → ℚ
  | [] => t
  | c :: cs => finalTime (enqueueChunk t c.duration c.rate c.clock).1 cs

/-- Timely arrival: every chunk in the run arrives no later than the running
nextStartTime, i.e. it is enqueued before the previous chunk's scheduled
end. -/
def timelyRun (t : ℚ) : List Chunk → Prop
  | [] => True
  | c :: cs => c.clock ≤ t ∧ timelyRun (t + c.duration / c.rate) cs

/-! ### Persona and session hook state -/

structure VoiceSettings where
  speed : ℚ
  pitch : ℚ

structure AgentPersona where
  voiceSettings : Option VoiceSettings

/-- Playback rate applied to a scheduled source: agent.voiceSettings.speed
with the JavaScript falsy fallbacks of the source (a speed of 0 falls back to
1.0; a missing voiceSettings leaves the default playbackRate of 1). -/
def effectiveRate (a : AgentPersona) : ℚ :=
  match a.voiceSettings with
  | none => 1
  | some v => if v.speed = 0 then 1 else v.speed

/-- Browser-side resources, tracked by allocation number: audio contexts
(open bit), microphone streams (live bit), and the count of opened duplex
transports.  A context or stream keeps its bit after the hook drops its ref,
which is what makes leaks observable. -/
structure World where
  ctxOpen : ℕ → Bool
  nCtx : ℕ
  micLive : ℕ → Bool
  nMic : ℕ
  transports : ℕ

def World.init : World := ⟨fun _ => false, 0, fun _ => false, 0, 0⟩

/-- Observable state plus refs of the useLiveAgent hook. -/
structure HookState where
  isConnected : Bool
  isSpeaking : Bool
  isListening : Bool
  volumeLevels : ℚ × ℚ
  error : Option String
  audioContextRef : Option ℕ
  inputContextRef : Option ℕ
  nextStartTimeRef : ℚ
  sessionRef : Bool
  streamRef : Option ℕ
  processorRef : Bool
  sourceRef : Bool
  volumeIntervalRef : Bool

def HookState.init : HookState :=
  ⟨false, false, false, (0, 0), none, none, none, 0, false, none, false, false, false⟩

/-- Closing an audio context clears its open bit; closing an already-closed
context is a no-op at this level (in the browser the close() promise rejects
asynchronously, which the source never awaits, so nothing is thrown). -/
def closeCtx (w : World) (i : ℕ) : World :=
  { w with ctxOpen := fun j => if j = i then false else w.ctxOpen j }

/-- Stopping a microphone stream clears its live bit. -/
def stopMic (w : World) (i : ℕ) : World :=
  { w with micLive := fun j => if j = i then false else w.micLive j }

/-- cleanup (useLiveAgent): disconnect the processor and source nodes, stop
the microphone tracks, close the input and output audio contexts, drop the
session handle (the transport itself is not closed), cancel the telemetry
interval, and zero the UI flags.  Every step is guarded on its ref being
present and the code never awaits a result, so the function is total; the
error slot is not touched. -/
def cleanup (s : HookState) (w : World) : HookState × World :=
  let s := { s with processorRef := false }
  let s := { s with sourceRef := false }
  let sw := match s.streamRef with
    | some i => ({ s with streamRef := none }, stopMic w i)
    | none => (s, w)
  let s := sw.1
  let w := sw.2
  let sw := match s.inputContextRef with
    | some i => ({ s with inputContextRef := none }, closeCtx w i)
    | none => (s, w)
  let s := sw.1
  let w := sw.2
  let sw := match s.audioContextRef with
    | some i => ({ s with audioContextRef := none }, closeCtx w i)
    | none => (s, w)
  let s := sw.1
  let w := sw.2
  let s := { s with sessionRef := false }
  let s := { s with volumeIntervalRef := false }
  let s := { s with isConnected := false, isListening := false, isSpeaking := false,
                    volumeLevels := (0, 0) }
  (s, w)

/-- Allocation of a fresh audio context: the next allocation number comes
back open. -/
def allocCtx (w : World) : World × ℕ :=
  ({ w with ctxOpen := fun j => if j = w.nCtx then true else w.ctxOpen j,
            nCtx := w.nCtx + 1 }, w.nCtx)

/-- Acquisition of a fresh microphone stream. -/
def allocMic (w : World) : World × ℕ :=
  ({ w with micLive := fun j => if j = w.nMic then true else w.micLive j,
            nMic := w.nMic + 1 }, w.nMic)

/-- Outcome of the suspension points inside connect: the happy path, or
getUserMedia rejecting (microphone permission denied). -/
inductive ConnectOutcome
  | success
  | micDenied

/-- connect (useLiveAgent): clear the error slot, create the output (24 kHz)
and input (16 kHz) audio contexts, then acquire the microphone.  There is no
guard on the current state: the refs are overwritten unconditionally.  On the
happy path the duplex transport is opened, the onopen callback marks the
session connected and listening and wires the capture nodes, and the 50 ms
telemetry interval is started.  If getUserMedia rejects, control lands in the
catch block: setError then cleanup. -/
def connect (s : HookState) (w : World) (outcome : ConnectOutcome) : HookState × World :=
  let s := { s with error := none }
  let wa := allocCtx w
  let w := wa.1
  let s := { s with audioContextRef := some wa.2 }
  let wi := allocCtx w
  let w := wi.1
  let s := { s with inputContextRef := some wi.2 }
  match outcome with
  | .micDenied =>
      cleanup { s with error := some "Failed to initialize" } w
  | .success =>
      let wm := allocMic w
      let w := wm.1
      let s := { s with streamRef := some wm.2 }
      let w := { w with transports := w.transports + 1 }
      let s := { s with sessionRef := true }
      let s := { s with isConnected := true, isListening := true,
                        sourceRef := true, processorRef := true }
      let s := { s with volumeIntervalRef := true }
      (s, w)

/-- One inbound server event, decoded at the transport boundary: an optional
audio payload (recorded by the duration of its decoded buffer), the
interruption flag, and the turn-complete flag. -/
structure ServerMessage where
  audio : Option ℚ
  interrupted : Bool
  turnComplete : Bool

/-- onmessage (useLiveAgent): if the event carries audio and the output
context ref is live, mark speaking and enqueue the decoded buffer on the
playback scheduler at the persona's effective rate; then, if the event
carries the interruption flag, reset nextStartTime to 0; then, if it carries
the turn-complete flag, clear speaking.  Returns the updated state and the
scheduled start when a chunk was enqueued. -/
def onmessage (agent : AgentPersona) (s : HookState) (msg : ServerMessage) (clock : ℚ) :
    HookState × Option ℚ :=
  let su :=
    match msg.audio, s.audioContextRef with
    | some d, some _ =>
        let p := enqueueChunk s.nextStartTimeRef d (effectiveRate agent) clock
        ({ s with isSpeaking := true, nextStartTimeRef := p.1 }, some p.2)
    | _, _ => (s, none)
  let s := su.1
  let s := if msg.interrupted then { s with nextStartTimeRef := 0 } else s
  let s := if msg.turnComplete then { s with isSpeaking := false } else s
  (s, su.2)

/-- One 50 ms telemetry tick (the interval body in connect): publish the
measured input and output levels and set isSpeaking from the fixed 0.01
output threshold, regardless of its previous value. -/
def telemetryTick (s : HookState) (inputVol outputVol : ℚ) : HookState :=
  { s with volumeLevels := (inputVol, outputVol),
           isSpeaking := decide ((1 : ℚ)/100 < outputVol) }

/-! ### Outbound microphone frame pipeline -/

/-- Outbound pipeline state: blobs whose send callback is queued on the
resolved session promise (a FIFO microtask queue), and the blobs the
transport has received. -/
structure OutboundState where
  pending : List (List ℕ)
  sent : List (List ℕ)

/-- Events of the capture pipeline: a frame-ready callback, or the event loop
draining the microtask queue. -/
inductive CaptureEvent
  | capture (frame : List ℚ)
  | drain

/-- onaudioprocess (useLiveAgent): each captured frame is encoded immediately
and its send callback is appended to the session promise's callback queue;
nothing is awaited and the transport state is never consulted.  A drain step
runs the queued callbacks in FIFO order, delivering the blobs to the
transport. -/
def stepOutbound (st : OutboundState) : CaptureEvent → OutboundState
  | .capture f => { st with pending := st.pending ++ [createPcmBlob f] }
  | .drain => { pending := [], sent := st.sent ++ st.pending }

/-- Frames of an event run, in capture order. -/
def capturedFrames (evs : List CaptureEvent) : List (List ℚ) :=
  evs.filterMap (fun e => match e with | .capture f => some f | .drain => none)

/-- Run of the outbound pipeline from the empty state. -/
def runOutbound (evs : List CaptureEvent) : OutboundState :=
  evs.foldl stepOutbound ⟨[], []⟩

/-! ### Project store -/

/-- Stored project record, restricted to the fields the store query reads. -/
structure ProjectRec where
  id : String
  userId : String
  updatedAt : ℕ

/-- getProjectsByUser (utils/db): read every project whose userId index key
equals the given user id and sort the result by updatedAt descending. -/
def getProjectsByUser (db : List ProjectRec) (userId : String) : List ProjectRec :=
  (db.filter (fun p => p.userId == userId)).mergeSort
    (fun a b => b.updatedAt ≤ a.updatedAt)

/-! ### Scheduler lemmas -/

theorem sched_head_start_le (cs : List Chunk) (t : ℚ) (p : ℚ × Chunk)
    (h : (sched t cs).head? = some p) : t ≤ p.1 := by
  cases cs with
  | nil => simp [sched] at h
  | cons c cs =>
    simp only [sched, enqueueChunk, List.head?_cons, Option.some_inj] at h
    rw [← h]
    exact le_max_left _ _

theorem sched_chain_no_overlap (cs : List Chunk) : ∀ t : ℚ,
    List.Chain' (fun a b : ℚ × Chunk => a.1 + a.2.duration / a.2.rate ≤ b.1) (sched t cs) := by
  induction cs with
  | nil => intro t; simp [sched]
  | cons c cs ih =>
    intro t
    simp only [sched, enqueueChunk]
    rw [List.chain'_cons']
    refine ⟨fun y hy => ?_, ih _⟩
    exact sched_head_start_le cs _ y hy

theorem sched_chain_mono (cs : List Chunk)
    (hwf : ∀ c ∈ cs, 0 ≤ c.duration ∧ 0 < c.rate) : ∀ t : ℚ,
    List.Chain' (fun a b : ℚ × Chunk => a.1 ≤ b.1) (sched t cs) := by
  induction cs with
  | nil => intro t; simp [sched]
  | cons c cs ih =>
    intro t
    simp only [sched, enqueueChunk]
    rw [List.chain'_cons']
    constructor
    · intro y hy
      have hstep : max t c.clock ≤ max t c.clock + c.duration / c.rate := by
        have hd : 0 ≤ c.duration / c.rate :=
          div_nonneg (hwf c (List.mem_cons_self c cs)).1
            (le_of_lt (hwf c (List.mem_cons_self c cs)).2)
        linarith
      exact le_trans hstep (sched_head_start_le cs _ y hy)
    · exact ih (fun c' hc' => hwf c' (List.mem_cons_of_mem c hc')) _

theorem finalTime_of_timelyRun (cs : List Chunk) : ∀ t : ℚ, timelyRun t cs →
    finalTime t cs = t + (cs.map (fun c => c.duration / c.rate)).sum := by
  induction cs with
  | nil => intro t _; simp [finalTime]
  | cons c cs ih =>
    intro t ht
    simp only [timelyRun] at ht
    obtain ⟨h1, h2⟩ := ht
    simp only [finalTime, enqueueChunk, List.map_cons, List.sum_cons]
    rw [max_eq_left h1, ih _ h2]
    ring

/-- C1: for every run of decoded chunks enqueued by the playback scheduler
(duration dᵢ, rate rᵢ, arriving at arbitrary device-clock times) the
scheduled start times are non-decreasing, no two scheduled chunks overlap
(each start is at or after the previous start plus its duration over its
rate), if every later chunk is enqueued before the previous chunk's scheduled
end then the final nextStartTime is the first start plus the sum of the
dᵢ/rᵢ (the total scheduled span is that sum), and a second chunk enqueued
before the first has started is scheduled at the first start plus d₁/r₁, not
at its own arrival clock. -/
theorem C1_playback_scheduler (t : ℚ) (cs : List Chunk)
    (hwf : ∀ c ∈ cs, 0 ≤ c.duration ∧ 0 < c.rate) :
    List.Chain' (fun a b : ℚ × Chunk => a.1 ≤ b.1) (sched t cs) ∧
    List.Chain' (fun a b : ℚ × Chunk => a.1 + a.2.duration / a.2.rate ≤ b.1) (sched t cs) ∧
    (∀ c cs', cs = c :: cs' →
      timelyRun (max t c.clock + c.duration / c.rate) cs' →
      finalTime t cs = max t c.clock + (cs.map (fun x => x.duration / x.rate)).sum) ∧
    (∀ c₁ c₂, cs = [c₁, c₂] → c₂.clock ≤ max t c₁.clock →
      (sched t cs).map Prod.fst =
        [max t c₁.clock, max t c₁.clock + c₁.duration / c₁.rate]) := by
  refine ⟨sched_chain_mono cs hwf t, sched_chain_no_overlap cs t, ?_, ?_⟩
  · intro c cs' hcs htimely
    subst hcs
    simp only [finalTime, enqueueChunk, List.map_cons, List.sum_cons]
    rw [finalTime_of_timelyRun cs' _ htimely]
    ring
  · intro c₁ c₂ hcs hclock
    subst hcs
    have hd : 0 ≤ c₁.duration / c₁.rate :=
      div_nonneg (hwf c₁ (by simp)).1 (le_of_lt (hwf c₁ (by simp)).2)
    have h2 : c₂.clock ≤ max t c₁.clock + c₁.duration / c₁.rate := by linarith
    simp only [sched, enqueueChunk, List.map_cons, List.map_nil]
    rw [max_eq_left h2]

theorem C1_playback_scheduler_witness :
    (sched 0 [⟨3/10, 1, 0⟩, ⟨3/10, 1, 0⟩]).map Prod.fst = [0, 3/10] ∧
    finalTime 0 [⟨3/10, 1, 0⟩, ⟨3/10, 1, 0⟩] = 3/5 := by
  have h := C1_playback_scheduler 0 [⟨3/10, 1, 0⟩, ⟨3/10, 1, 0⟩]
    (by intro c hc; fin_cases hc <;> norm_num)
  constructor
  · have h4 := h.2.2.2 ⟨3/10, 1, 0⟩ ⟨3/10, 1, 0⟩ rfl (by norm_num)
    norm_num at h4
    exact h4
  · have h3 := h.2.2.1 ⟨3/10, 1, 0⟩ [⟨3/10, 1, 0⟩] rfl
      (by simp only [timelyRun]; norm_num)
    norm_num at h3
    exact h3

/-- C2: after an inbound event carrying the interruption flag, the next chunk
enqueued is scheduled exactly at the device-clock reading at its scheduling
moment (in particular at or after it), however large nextStartTime had grown
before the interruption. -/
theorem C2_interruption_resets_timeline (agent : AgentPersona) (s : HookState)
    (msg1 msg2 : ServerMessage) (c1 c2 d : ℚ) (k : ℕ)
    (hint : msg1.interrupted = true)
    (haudio : msg2.audio = some d)
    (hctx : s.audioContextRef = some k)
    (hc2 : 0 ≤ c2) :
    (onmessage agent (onmessage agent s msg1 c1).1 msg2 c2).2 = some c2 ∧
    (∀ st, (onmessage agent (onmessage agent s msg1 c1).1 msg2 c2).2 = some st → c2 ≤ st) := by
  rcases msg1 with ⟨a1, i1, t1⟩
  cases hint
  constructor
  · cases a1 <;> cases t1 <;>
      simp [onmessage, enqueueChunk, hctx, haudio, max_eq_right hc2]
  · intro st hst
    cases a1 <;> cases t1 <;>
      simp [onmessage, enqueueChunk, hctx, haudio, max_eq_right hc2] at hst <;>
      simp [← hst]

theorem C2_interruption_resets_timeline_witness :
    (onmessage ⟨none⟩
      (onmessage ⟨none⟩ { HookState.init with audioContextRef := some 0 }
        ⟨some (1/2), true, false⟩ 0).1
      ⟨some (3/10), false, false⟩ 5).2 = some 5 :=
  (C2_interruption_resets_timeline ⟨none⟩
    { HookState.init with audioContextRef := some 0 }
    ⟨some (1/2), true, false⟩ ⟨some (3/10), false, false⟩ 0 5 (3/10) 0
    rfl rfl rfl (by norm_num)).1

/-! ### cleanup and connect lemmas -/

theorem cleanup_fst (s : HookState) (w : World) :
    (cleanup s w).1 =
      { s with isConnected := false, isListening := false, isSpeaking := false,
               volumeLevels := (0, 0), processorRef := false, sourceRef := false,
               streamRef := none, inputContextRef := none, audioContextRef := none,
               sessionRef := false, volumeIntervalRef := false } := by
  rcases s with ⟨c, sp, li, vol, er, actx, ictx, nst, ses, str, proc, src, vi⟩
  cases str <;> cases ictx <;> cases actx <;> rfl

theorem cleanup_micLive (s : HookState) (w : World) (i : ℕ)
    (h : s.streamRef = some i) : (cleanup s w).2.micLive i = false := by
  rcases s with ⟨c, sp, li, vol, er, actx, ictx, nst, ses, str, proc, src, vi⟩
  subst h
  cases ictx <;> cases actx <;> simp [cleanup, stopMic, closeCtx]

theorem cleanup_ctxOpen_input (s : HookState) (w : World) (i : ℕ)
    (h : s.inputContextRef = some i) : (cleanup s w).2.ctxOpen i = false := by
  rcases s with ⟨c, sp, li, vol, er, actx, ictx, nst, ses, str, proc, src, vi⟩
  subst h
  cases str <;> cases actx <;> simp [cleanup, stopMic, closeCtx]

theorem cleanup_ctxOpen_audio (s : HookState) (w : World) (i : ℕ)
    (h : s.audioContextRef = some i) : (cleanup s w).2.ctxOpen i = false := by
  rcases s with ⟨c, sp, li, vol, er, actx, ictx, nst, ses, str, proc, src, vi⟩
  subst h
  cases str <;> cases ictx <;> simp [cleanup, stopMic, closeCtx]

theorem cleanup_world_id (s : HookState) (w : World)
    (h1 : s.streamRef = none) (h2 : s.inputContextRef = none)
    (h3 : s.audioContextRef = none) : (cleanup s w).2 = w := by
  rcases s with ⟨c, sp, li, vol, er, actx, ictx, nst, ses, str, proc, src, vi⟩
  subst h1
  subst h2
  subst h3
  rfl

theorem cleanup_error (s : HookState) (w : World) :
    (cleanup s w).1.error = s.error := by
  rw [cleanup_fst]

/-- C4: whatever the prior history (a second disconnect in a row, a
disconnect before any successful connect, refs already cleared), cleanup is a
total function of the state — nothing is thrown — and afterwards every
observable flag is at its zero state: isConnected, isListening and
isSpeaking false, volume levels (0, 0), microphone stream stopped, both
audio contexts closed, transport handle cleared, telemetry timer cancelled;
and a repeated call changes nothing. -/
theorem C4_cleanup_total_zero_state (s : HookState) (w : World) :
    ((cleanup s w).1.isConnected = false) ∧
    ((cleanup s w).1.isListening = false) ∧
    ((cleanup s w).1.isSpeaking = false) ∧
    ((cleanup s w).1.volumeLevels = (0, 0)) ∧
    ((cleanup s w).1.streamRef = none) ∧
    ((cleanup s w).1.inputContextRef = none) ∧
    ((cleanup s w).1.audioContextRef = none) ∧
    ((cleanup s w).1.sessionRef = false) ∧
    ((cleanup s w).1.volumeIntervalRef = false) ∧
    (∀ i, s.streamRef = some i → (cleanup s w).2.micLive i = false) ∧
    (∀ i, s.inputContextRef = some i → (cleanup s w).2.ctxOpen i = false) ∧
    (∀ i, s.audioContextRef = some i → (cleanup s w).2.ctxOpen i = false) ∧
    (cleanup (cleanup s w).1 (cleanup s w).2 = cleanup s w) := by
  refine ⟨by rw [cleanup_fst], by rw [cleanup_fst], by rw [cleanup_fst],
    by rw [cleanup_fst], by rw [cleanup_fst], by rw [cleanup_fst],
    by rw [cleanup_fst], by rw [cleanup_fst], by rw [cleanup_fst],
    fun i h => cleanup_micLive s w i h,
    fun i h => cleanup_ctxOpen_input s w i h,
    fun i h => cleanup_ctxOpen_audio s w i h, ?_⟩
  have h2 : (cleanup (cleanup s w).1 (cleanup s w).2).2 = (cleanup s w).2 :=
    cleanup_world_id _ _ (by rw [cleanup_fst]) (by rw [cleanup_fst]) (by rw [cleanup_fst])
  have h1 : (cleanup (cleanup s w).1 (cleanup s w).2).1 = (cleanup s w).1 := by
    rw [cleanup_fst, cleanup_fst]
  rw [Prod.ext_iff]
  exact ⟨h1, h2⟩

theorem C4_cleanup_total_zero_state_witness :
    ((cleanup HookState.init World.init).1.isConnected = false) ∧
    ((cleanup { HookState.init with streamRef := some 0, inputContextRef := some 1, audioContextRef := some 2 } World.init).2.micLive 0 = false) := by
  refine ⟨(C4_cleanup_total_zero_state HookState.init World.init).1, ?_⟩
  exact (C4_cleanup_total_zero_state
    { HookState.init with streamRef := some 0, inputContextRef := some 1, audioContextRef := some 2 }
    World.init).2.2.2.2.2.2.2.2.2.1 0 rfl

/-- C9: cleanup never writes the error slot — after a failed connect the
message stays in place through and after teardown — and the slot is reset to
none only by the first action of the next connect call (on either outcome of
that call the old error is gone). -/
theorem C9_error_slot_untouched_by_cleanup (s : HookState) (w : World) :
    ((cleanup s w).1.error = s.error) ∧
    ((connect s w .micDenied).1.error = some "Failed to initialize") ∧
    ((cleanup (connect s w .micDenied).1 (connect s w .micDenied).2).1.error
      = some "Failed to initialize") ∧
    ((connect s w .success).1.error = none) := by
  refine ⟨cleanup_error s w, ?_, ?_, ?_⟩
  · show (cleanup _ _).1.error = _
    rw [cleanup_error]
  · rw [cleanup_error]
    show (cleanup _ _).1.error = _
    rw [cleanup_error]
  · rfl

/-- C5: if getUserMedia rejects during connect (microphone permission
denied), the hook lands in the error state — error is non-null, the
connected and listening flags are false — full teardown has run (context and
stream refs cleared), and neither of the two audio contexts created during
this attempt (allocation numbers nCtx and nCtx+1 of the starting world) is
left open. -/
theorem C5_mic_denied_error_teardown (s : HookState) (w : World) :
    ((connect s w .micDenied).1.error = some "Failed to initialize") ∧
    ((connect s w .micDenied).1.isConnected = false) ∧
    ((connect s w .micDenied).1.isListening = false) ∧
    ((connect s w .micDenied).1.audioContextRef = none) ∧
    ((connect s w .micDenied).1.inputContextRef = none) ∧
    ((connect s w .micDenied).2.nCtx = w.nCtx + 2) ∧
    ((connect s w .micDenied).2.ctxOpen w.nCtx = false) ∧
    ((connect s w .micDenied).2.ctxOpen (w.nCtx + 1) = false) := by
  refine ⟨?_, ?_, ?_, ?_, ?_, ?_, ?_, ?_⟩
  · show (cleanup _ _).1.error = _
    rw [cleanup_error]
  · show (cleanup _ _).1.isConnected = _
    rw [cleanup_fst]
  · show (cleanup _ _).1.isListening = _
    rw [cleanup_fst]
  · show (cleanup _ _).1.audioContextRef = _
    rw [cleanup_fst]
  · show (cleanup _ _).1.inputContextRef = _
    rw [cleanup_fst]
  · rcases s with ⟨c, sp, li, vol, er, actx, ictx, nst, ses, str, proc, src, vi⟩
    cases str <;> rfl
  · exact cleanup_ctxOpen_audio _ _ _ rfl
  · exact cleanup_ctxOpen_input _ _ _ rfl

/-- C3 as stated is false on the code: connect has no state-machine guard.
From a freshly connected session a second connect call opens a second
transport, acquires a second live microphone stream, and leaves four audio
contexts open at once. -/
theorem C3_counterexample :
    ((connect (connect HookState.init World.init .success).1
        (connect HookState.init World.init .success).2 .success).2.transports = 2) ∧
    ((connect (connect HookState.init World.init .success).1
        (connect HookState.init World.init .success).2 .success).2.micLive 0 = true) ∧
    ((connect (connect HookState.init World.init .success).1
        (connect HookState.init World.init .success).2 .success).2.micLive 1 = true) ∧
    ((connect (connect HookState.init World.init .success).1
        (connect HookState.init World.init .success).2 .success).2.ctxOpen 0 = true) ∧
    ((connect (connect HookState.init World.init .success).1
        (connect HookState.init World.init .success).2 .success).2.ctxOpen 1 = true) ∧
    ((connect (connect HookState.init World.init .success).1
        (connect HookState.init World.init .success).2 .success).2.ctxOpen 2 = true) ∧
    ((connect (connect HookState.init World.init .success).1
        (connect HookState.init World.init .success).2 .success).2.ctxOpen 3 = true) :=
  ⟨rfl, rfl, rfl, rfl, rfl, rfl, rfl⟩

/-- C3 amended: connect is not guarded against a live session.  Called in any
state — in particular while already Open — it opens one more transport,
acquires one more live microphone stream and two more open audio contexts,
and leaves every previously allocated context and stream exactly as it was:
nothing is released first. -/
theorem C3_connect_unguarded (s : HookState) (w : World) :
    ((connect s w .success).2.transports = w.transports + 1) ∧
    ((connect s w .success).2.nCtx = w.nCtx + 2) ∧
    ((connect s w .success).2.nMic = w.nMic + 1) ∧
    ((connect s w .success).2.ctxOpen w.nCtx = true) ∧
    ((connect s w .success).2.ctxOpen (w.nCtx + 1) = true) ∧
    ((connect s w .success).2.micLive w.nMic = true) ∧
    (∀ j, j ≠ w.nCtx → j ≠ w.nCtx + 1 → (connect s w .success).2.ctxOpen j = w.ctxOpen j) ∧
    (∀ j, j ≠ w.nMic → (connect s w .success).2.micLive j = w.micLive j) := by
  refine ⟨rfl, rfl, rfl, ?_, ?_, ?_, ?_, ?_⟩
  · show (if w.nCtx = w.nCtx + 1 then true else if w.nCtx = w.nCtx then true
      else w.ctxOpen w.nCtx) = true
    simp
  · simp [connect, allocCtx, allocMic]
  · simp [connect, allocCtx, allocMic]
  · intro j h1 h2
    show (if j = w.nCtx + 1 then true else if j = w.nCtx then true
      else w.ctxOpen j) = w.ctxOpen j
    rw [if_neg h2, if_neg h1]
  · intro j h1
    show (if j = w.nMic then true else w.micLive j) = w.micLive j
    rw [if_neg h1]

theorem C3_connect_unguarded_witness :
    (connect (connect HookState.init World.init .success).1
      (connect HookState.init World.init .success).2 .success).2.micLive 0 = true := by
  rw [(C3_connect_unguarded (connect HookState.init World.init .success).1
    (connect HookState.init World.init .success).2).2.2.2.2.2.2.2 0 (by decide)]
  rfl

/-! ### PCM round-trip lemmas -/

theorem clamp16_lb (n : ℤ) : -32768 ≤ clamp16 n := by
  simp only [clamp16]
  omega

theorem clamp16_ub (n : ℤ) : clamp16 n ≤ 32767 := by
  simp only [clamp16]
  omega

theorem int16_bytes_roundtrip (n : ℤ) (h1 : -32768 ≤ n) (h2 : n ≤ 32767) :
    bytesToInt16 (int16ToBytes n).1 (int16ToBytes n).2 = n := by
  simp only [int16ToBytes, bytesToInt16]
  split <;> omega

theorem bytes_roundtrip_encode (s : ℚ) :
    bytesToInt16 (int16ToBytes (encodeSample s)).1 (int16ToBytes (encodeSample s)).2
      = encodeSample s :=
  int16_bytes_roundtrip _ (clamp16_lb _) (clamp16_ub _)

theorem encode_decode_close (s : ℚ) (h1 : -1 ≤ s) (h2 : s ≤ 1) :
    |s - decodeSample (encodeSample s)| ≤ 1 / 32768 := by
  have hub : s * 32768 ≤ 32768 := by nlinarith
  have hlb : (-32768 : ℚ) ≤ s * 32768 := by nlinarith
  have hfl : ((⌊s * 32768⌋ : ℤ) : ℚ) ≤ s * 32768 := Int.floor_le _
  have hfu : s * 32768 < (⌊s * 32768⌋ : ℚ) + 1 := Int.lt_floor_add_one _
  have hfl2 : (-32768 : ℤ) ≤ ⌊s * 32768⌋ := by
    rw [Int.le_floor]
    push_cast
    linarith
  rcases le_or_lt (⌊s * 32768⌋) 32767 with hc | hc
  · have he : encodeSample s = ⌊s * 32768⌋ := by
      simp only [encodeSample, clamp16]
      rw [min_eq_right hc, max_eq_right hfl2]
    rw [he, decodeSample, abs_le]
    constructor <;> linarith
  · have hfu2 : ⌊s * 32768⌋ ≤ 32768 := by
      have hm : ⌊s * 32768⌋ ≤ ⌊(32768 : ℚ)⌋ := Int.floor_le_floor hub
      simpa using hm
    have hf : ⌊s * 32768⌋ = 32768 := by omega
    have he : encodeSample s = 32767 := by
      simp only [encodeSample, clamp16, hf]
      norm_num
    have hs1 : (1 : ℚ) ≤ s := by
      rw [hf] at hfl
      push_cast at hfl
      linarith
    have hseq : s = 1 := le_antisymm h2 hs1
    rw [he, decodeSample, hseq, abs_le]
    constructor <;> norm_num

theorem decode_createPcmBlob (samples : List ℚ) :
    decodeAudioData (createPcmBlob samples)
      = samples.map (fun s => decodeSample (encodeSample s)) := by
  induction samples with
  | nil => rfl
  | cons s rest ih =>
    show decodeSample (bytesToInt16 (int16ToBytes (encodeSample s)).1
        (int16ToBytes (encodeSample s)).2) :: decodeAudioData (createPcmBlob rest) = _
    rw [bytes_roundtrip_encode, ih, List.map_cons]

/-- C6: encoding a block of floating-point samples in [-1,1] (quantization to
clamped signed 16-bit integers, serialized little-endian; base64 is a
bijection on the byte sequence) and decoding the same byte sequence back
reproduces every sample within quantization error: the lists correspond
pointwise with absolute difference at most 1/32768. -/
theorem C6_pcm_roundtrip (samples : List ℚ)
    (h : ∀ s ∈ samples, -1 ≤ s ∧ s ≤ 1) :
    List.Forall₂ (fun a b => |a - b| ≤ 1 / 32768) samples
      (decodeAudioData (createPcmBlob samples)) := by
  rw [decode_createPcmBlob, List.forall₂_map_right_iff]
  rw [List.forall₂_same]
  intro x hx
  exact encode_decode_close x (h x hx).1 (h x hx).2

theorem C6_pcm_roundtrip_witness :
    List.Forall₂ (fun a b : ℚ => |a - b| ≤ 1 / 32768) [1/2, -1, 1, 0]
      (decodeAudioData (createPcmBlob [1/2, -1, 1, 0])) :=
  C6_pcm_roundtrip [1/2, -1, 1, 0]
    (by intro s hs; fin_cases hs <;> norm_num)

/-- C7: the speaking flag is set on every inbound event carrying an audio
payload (handled with the output context live; when the same event does not
also carry turn-complete, which runs later in the handler, the flag ends
true), cleared on every inbound event carrying the turn-complete flag, and on
every telemetry tick set exactly according to whether the output level
exceeds the 0.01 threshold, regardless of its previous value. -/
theorem C7_speaking_flag (agent : AgentPersona) (s : HookState)
    (msg : ServerMessage) (clock d : ℚ) (k : ℕ) :
    (msg.audio = some d → s.audioContextRef = some k → msg.turnComplete = false →
      (onmessage agent s msg clock).1.isSpeaking = true) ∧
    (msg.turnComplete = true → (onmessage agent s msg clock).1.isSpeaking = false) ∧
    (∀ iv ov : ℚ, (telemetryTick s iv ov).isSpeaking = decide ((1 : ℚ)/100 < ov)) := by
  refine ⟨?_, ?_, fun iv ov => rfl⟩
  · intro ha hc ht
    rcases msg with ⟨a, i, t⟩
    cases ht
    cases ha
    cases i <;> simp [onmessage, enqueueChunk, hc]
  · intro ht
    rcases msg with ⟨a, i, t⟩
    cases ht
    rcases hx : s.audioContextRef with _ | k2 <;>
      cases a <;> cases i <;> simp [onmessage, enqueueChunk, hx]

theorem C7_speaking_flag_witness :
    ((onmessage ⟨none⟩ { HookState.init with audioContextRef := some 0 }
      ⟨some 1, false, false⟩ 0).1.isSpeaking = true) ∧
    ((onmessage ⟨none⟩ { HookState.init with audioContextRef := some 0 }
      ⟨none, false, true⟩ 0).1.isSpeaking = false) ∧
    ((telemetryTick HookState.init 0 (1/2)).isSpeaking = true) := by
  refine ⟨(C7_speaking_flag ⟨none⟩ { HookState.init with audioContextRef := some 0 }
      ⟨some 1, false, false⟩ 0 1 0).1 rfl rfl rfl,
    (C7_speaking_flag ⟨none⟩ { HookState.init with audioContextRef := some 0 }
      ⟨none, false, true⟩ 0 1 0).2.1 rfl, ?_⟩
  rw [(C7_speaking_flag ⟨none⟩ HookState.init ⟨none, false, false⟩ 0 1 0).2.2 0 (1/2)]
  norm_num

/-! ### Outbound ordering lemmas -/

theorem runOutbound_invariant (evs : List CaptureEvent) : ∀ st : OutboundState,
    (evs.foldl stepOutbound st).sent ++ (evs.foldl stepOutbound st).pending =
      st.sent ++ st.pending ++ (capturedFrames evs).map createPcmBlob := by
  induction evs with
  | nil => intro st; simp [capturedFrames]
  | cons e evs ih =>
    intro st
    cases e with
    | capture f =>
      rw [List.foldl_cons]
      rw [ih]
      simp [stepOutbound, capturedFrames]
    | drain =>
      rw [List.foldl_cons]
      rw [ih]
      simp [stepOutbound, capturedFrames]

/-- C8: the outbound path is fire-and-forget and order-preserving: a capture
step encodes the frame at once and appends its send callback without
consulting the transport, and over every interleaving of capture and drain
events the transport receives exactly the captured frames, encoded, in
capture order; after a final drain of the callback queue the sent sequence is
the full capture sequence encoded and nothing is left pending. -/
theorem C8_outbound_capture_order (evs : List CaptureEvent) :
    ((runOutbound evs).sent ++ (runOutbound evs).pending =
      (capturedFrames evs).map createPcmBlob) ∧
    ((runOutbound (evs ++ [CaptureEvent.drain])).sent =
      (capturedFrames evs).map createPcmBlob) ∧
    ((runOutbound (evs ++ [CaptureEvent.drain])).pending = []) := by
  have h1 := runOutbound_invariant evs ⟨[], []⟩
  simp only [runOutbound]
  refine ⟨by simpa using h1, ?_, by simp [List.foldl_append, stepOutbound]⟩
  rw [List.foldl_append]
  show ((List.foldl stepOutbound ⟨[], []⟩ evs).sent ++
    (List.foldl stepOutbound ⟨[], []⟩ evs).pending) = _
  simpa using h1

/-! ### Project store lemmas -/

theorem C10_helper_total (a b : ProjectRec) :
    (decide (b.updatedAt ≤ a.updatedAt) || decide (a.updatedAt ≤ b.updatedAt)) = true := by
  rcases Nat.le_total b.updatedAt a.updatedAt with h | h <;> simp [h]

/-- C10: getProjectsByUser returns exactly the stored projects whose userId
equals the given id — the result is a permutation of that filter, so no other
user's project appears and none of the user's is dropped — sorted by
updatedAt in descending order (most recently updated first). -/
theorem C10_getProjectsByUser (db : List ProjectRec) (uid : String) :
    (∀ p ∈ getProjectsByUser db uid, p.userId = uid) ∧
    ((getProjectsByUser db uid).Perm (db.filter (fun p => p.userId == uid))) ∧
    (List.Pairwise (fun a b : ProjectRec => b.updatedAt ≤ a.updatedAt)
      (getProjectsByUser db uid)) := by
  refine ⟨?_, List.mergeSort_perm _ _, ?_⟩
  · intro p hp
    rw [getProjectsByUser, List.mem_mergeSort, List.mem_filter] at hp
    exact by simpa using hp.2
  · rw [getProjectsByUser]
    refine List.Pairwise.imp ?_
      (List.sorted_mergeSort ?_ ?_ (db.filter (fun p => p.userId == uid)))
    · intro a b h
      simpa using h
    · intro a b c hab hbc
      simp only [decide_eq_true_eq] at hab hbc ⊢
      omega
    · exact C10_helper_total

end NeonVoice
